import Mathlib

set_option linter.unusedSectionVars false

/-!
# Verification of the datatoolbelt statistics and table-combination library

Shallow embedding of `src/datatoolbelt/pandastools.py` and
`src/datatoolbelt/pdtools.py`.  Value collections are Lean lists; the
pandas counting primitive `Series.value_counts` is modelled by
`valueCounts` (distinct values in first-encountered order with their
counts; `sort=True, ascending=False` adds a stable descending sort on the
count, matching the order pinned down by the library's doctests and
tests).  Floating-point results are modelled exactly: real numbers for
entropy, rationals for the relative-frequency columns; the float value
NaN is modelled by `Option.none`.
-/

namespace Datatoolbelt

variable {α : Type} [DecidableEq α]

/-- Distinct values of a list in order of first appearance (the key order
produced by the pandas hash-table counting that `value_counts` uses when
`sort=False`).  `List.dedup` keeps the last occurrence of each value, so
deduplicating the reversed list and reversing back keeps each value's
first occurrence in its original position. -/
def firstUniques (l : List α) : List α :=
  l.reverse.dedup.reverse

@[simp]
theorem firstUniques_nil : firstUniques ([] : List α) = [] := by
  simp [firstUniques]

theorem mem_firstUniques {a : α} {l : List α} : a ∈ firstUniques l ↔ a ∈ l := by
  simp [firstUniques]

theorem nodup_firstUniques (l : List α) : (firstUniques l).Nodup := by
  unfold firstUniques
  exact List.nodup_reverse.mpr l.reverse.nodup_dedup

theorem firstUniques_perm_dedup (l : List α) : (firstUniques l).Perm l.dedup := by
  unfold firstUniques
  exact (l.reverse.dedup.reverse_perm).trans l.reverse_perm.dedup

/-- Per-value counts of a list, keyed in first-encountered order: the model
of `pd.Series(values).value_counts(sort=False, dropna=False)`. -/
def valueCounts (l : List α) : List (α × ℕ) :=
  (firstUniques l).map (fun v => (v, l.count v))

theorem valueCounts_perm {l l' : List α} (h : l.Perm l') :
    (valueCounts l).Perm (valueCounts l') := by
  have hperm : (firstUniques l).Perm (firstUniques l') := by
    rw [List.perm_ext_iff_of_nodup (nodup_firstUniques l) (nodup_firstUniques l')]
    intro a
    rw [mem_firstUniques, mem_firstUniques]
    exact h.mem_iff
  have hmap : (firstUniques l).map (fun v => (v, l.count v)) =
      (firstUniques l).map (fun v => (v, l'.count v)) := by
    apply List.map_congr_left
    intro v _
    rw [h.count_eq]
  unfold valueCounts
  rw [hmap]
  exact hperm.map _

theorem count_pos_of_mem_valueCounts {l : List α} {p : α × ℕ}
    (hp : p ∈ valueCounts l) : 1 ≤ p.2 := by
  unfold valueCounts at hp
  obtain ⟨v, hv, rfl⟩ := List.mem_map.mp hp
  have : v ∈ l := mem_firstUniques.mp hv
  simpa [List.count_pos_iff] using this

theorem sum_valueCounts (l : List α) :
    ((valueCounts l).map Prod.snd).sum = l.length := by
  have hperm : (firstUniques l).Perm l.dedup := firstUniques_perm_dedup l
  have : ((valueCounts l).map Prod.snd) = (firstUniques l).map (fun v => l.count v) := by
    unfold valueCounts
    rw [List.map_map]
    rfl
  rw [this]
  have h2 : ((firstUniques l).map (fun v => l.count v)).Perm
      (l.dedup.map (fun v => l.count v)) := hperm.map _
  rw [h2.sum_eq]
  exact List.sum_map_count_dedup_eq_length l

theorem valueCounts_nil : valueCounts ([] : List α) = [] := by
  simp [valueCounts]

theorem firstUniques_eq_nil_iff {l : List α} : firstUniques l = [] ↔ l = [] := by
  unfold firstUniques
  rw [List.reverse_eq_nil_iff, List.dedup_eq_nil, List.reverse_eq_nil_iff]

theorem valueCounts_ne_nil {l : List α} (h : l ≠ []) : valueCounts l ≠ [] := by
  unfold valueCounts
  intro hc
  rw [List.map_eq_nil_iff] at hc
  exact h (firstUniques_eq_nil_iff.mp hc)

/-! ## Stable descending sort on counts

Models the `sort=True, ascending=False` behaviour of `value_counts` as a
stable insertion sort on the count component: descending counts, ties
keeping first-encountered order.  This is the order the doctests of both
`freq` implementations and the test suite pin down. -/

/-- Insert a keyed pair into a descending-by-count list, before the first
element whose count is `≤` its own (stable descending insertion). -/
def insertDesc (x : α × ℕ) : List (α × ℕ) → List (α × ℕ)
  | [] => [x]
  | y :: ys => if y.2 ≤ x.2 then x :: y :: ys else y :: insertDesc x ys

/-- Stable sort by descending count. -/
def sortCountDesc : List (α × ℕ) → List (α × ℕ)
  | [] => []
  | x :: xs => insertDesc x (sortCountDesc xs)

theorem insertDesc_perm (x : α × ℕ) (l : List (α × ℕ)) :
    (insertDesc x l).Perm (x :: l) := by
  induction l with
  | nil => simp [insertDesc]
  | cons y ys ih =>
    unfold insertDesc
    by_cases h : y.2 ≤ x.2
    · simp [h]
    · simp only [h, if_false]
      exact (ih.cons y).trans (List.Perm.swap x y ys)

theorem sortCountDesc_perm (l : List (α × ℕ)) : (sortCountDesc l).Perm l := by
  induction l with
  | nil => simp [sortCountDesc]
  | cons x xs ih =>
    unfold sortCountDesc
    exact (insertDesc_perm x (sortCountDesc xs)).trans (ih.cons x)

theorem mem_insertDesc {z x : α × ℕ} {l : List (α × ℕ)} :
    z ∈ insertDesc x l ↔ z = x ∨ z ∈ l :=
  (insertDesc_perm x l).mem_iff.trans (List.mem_cons)

theorem pairwise_insertDesc {x : α × ℕ} {l : List (α × ℕ)}
    (hl : l.Pairwise (fun a b => b.2 ≤ a.2)) :
    (insertDesc x l).Pairwise (fun a b => b.2 ≤ a.2) := by
  induction l with
  | nil => simp [insertDesc]
  | cons y ys ih =>
    unfold insertDesc
    by_cases h : y.2 ≤ x.2
    · simp only [h, if_true]
      refine List.Pairwise.cons ?_ hl
      intro z hz
      rcases List.mem_cons.mp hz with rfl | hz'
      · exact h
      · exact le_trans ((List.pairwise_cons.mp hl).1 z hz') h
    · simp only [h, if_false]
      rcases List.pairwise_cons.mp hl with ⟨hyys, hys⟩
      refine List.Pairwise.cons ?_ (ih hys)
      intro z hz
      rcases mem_insertDesc.mp hz with rfl | hz'
      · exact le_of_lt (lt_of_not_le h)
      · exact hyys z hz'

theorem pairwise_sortCountDesc (l : List (α × ℕ)) :
    (sortCountDesc l).Pairwise (fun a b => b.2 ≤ a.2) := by
  induction l with
  | nil => simp [sortCountDesc]
  | cons x xs ih =>
    unfold sortCountDesc
    exact pairwise_insertDesc ih

theorem filter_insertDesc_of_ne {x : α × ℕ} {c : ℕ} (hx : x.2 ≠ c)
    (l : List (α × ℕ)) :
    (insertDesc x l).filter (fun p => p.2 = c) = l.filter (fun p => p.2 = c) := by
  induction l with
  | nil => simp [insertDesc, hx]
  | cons y ys ih =>
    unfold insertDesc
    by_cases h : y.2 ≤ x.2
    · rw [if_pos h]
      simp [hx]
    · rw [if_neg h, List.filter_cons, List.filter_cons, ih]

theorem filter_insertDesc_of_eq {x : α × ℕ} (l : List (α × ℕ)) :
    (insertDesc x l).filter (fun p => p.2 = x.2) =
      x :: l.filter (fun p => p.2 = x.2) := by
  induction l with
  | nil => simp [insertDesc]
  | cons y ys ih =>
    unfold insertDesc
    by_cases h : y.2 ≤ x.2
    · simp [h]
    · have hy : ¬ (y.2 = x.2) := fun heq => h (le_of_eq heq)
      simp [h, hy, ih]

/-- Stability: filtering the sorted list at any fixed count gives exactly the
equal-count pairs in their original (first-encountered) order. -/
theorem filter_sortCountDesc (l : List (α × ℕ)) (c : ℕ) :
    (sortCountDesc l).filter (fun p => p.2 = c) = l.filter (fun p => p.2 = c) := by
  induction l with
  | nil => simp [sortCountDesc]
  | cons x xs ih =>
    unfold sortCountDesc
    by_cases hx : x.2 = c
    · subst hx
      rw [filter_insertDesc_of_eq, ih]
      simp
    · rw [filter_insertDesc_of_ne hx, ih]
      simp [hx]

/-! ## Frequency tables -/

/-- A row of the frequency table: the distinct value (the row label), its
count `n`, cumulative count `N`, relative frequency `r = n / Σn`, and
cumulative relative frequency `R`. -/
structure FreqRow (α : Type) where
  value : α
  n : ℕ
  N : ℕ
  r : ℚ
  R : ℚ
deriving DecidableEq

/-- Annotate the sorted `(value, count)` pairs with the cumulative count,
relative frequency and cumulative relative frequency columns (the
`assign(N=..., r=..., R=...)` step, with `accN`/`accR` the running sums). -/
def freqRows (total : ℚ) : List (α × ℕ) → ℕ → ℚ → List (FreqRow α)
  | [], _, _ => []
  | (v, n) :: rest, accN, accR =>
    let r : ℚ := (n : ℚ) / total
    ⟨v, n, accN + n, r, accR + r⟩ :: freqRows total rest (accN + n) (accR + r)

namespace pandastools

/-- Embedding of `pandastools.freq`: counts per distinct value sorted by
descending count (stably, so ties keep first-encountered order), annotated
with the `N`, `r`, `R` columns. -/
def freq (values : List α) : List (FreqRow α) :=
  let sorted := sortCountDesc (valueCounts values)
  freqRows ((sorted.map Prod.snd).sum : ℚ) sorted 0 0

end pandastools

namespace pdtools

/-- Embedding of `pdtools.freq` (textually the same computation as
`pandastools.freq`). -/
def freq (values : List α) : List (FreqRow α) :=
  let sorted := sortCountDesc (valueCounts values)
  freqRows ((sorted.map Prod.snd).sum : ℚ) sorted 0 0

end pdtools

/-- Running partial sums of a list (the spec's "running cumulative sum"). -/
def cumsumFrom {M : Type} [Add M] (acc : M) : List M → List M
  | [] => []
  | x :: xs => (acc + x) :: cumsumFrom (acc + x) xs

/-- Cumulative sums starting from zero. -/
def cumsum {M : Type} [Add M] [Zero M] (l : List M) : List M :=
  cumsumFrom 0 l

theorem freqRows_map_value_n (total : ℚ) :
    ∀ (l : List (α × ℕ)) (accN : ℕ) (accR : ℚ),
      (freqRows total l accN accR).map (fun row => (row.value, row.n)) = l := by
  intro l
  induction l with
  | nil => intro accN accR; simp [freqRows]
  | cons p rest ih =>
    intro accN accR
    obtain ⟨v, n⟩ := p
    simp [freqRows, ih]

theorem freqRows_map_n (total : ℚ) (l : List (α × ℕ)) (accN : ℕ) (accR : ℚ) :
    (freqRows total l accN accR).map (fun row => row.n) = l.map Prod.snd := by
  have h := congrArg (List.map Prod.snd) (freqRows_map_value_n total l accN accR)
  rw [List.map_map] at h
  exact h

theorem freqRows_map_bigN (total : ℚ) :
    ∀ (l : List (α × ℕ)) (accN : ℕ) (accR : ℚ),
      (freqRows total l accN accR).map (fun row => row.N) =
        cumsumFrom accN (l.map Prod.snd) := by
  intro l
  induction l with
  | nil => intro accN accR; simp [freqRows, cumsumFrom]
  | cons p rest ih =>
    intro accN accR
    obtain ⟨v, n⟩ := p
    simp [freqRows, cumsumFrom, ih]

theorem freqRows_map_r (total : ℚ) :
    ∀ (l : List (α × ℕ)) (accN : ℕ) (accR : ℚ),
      (freqRows total l accN accR).map (fun row => row.r) =
        l.map (fun p => (p.2 : ℚ) / total) := by
  intro l
  induction l with
  | nil => intro accN accR; simp [freqRows]
  | cons p rest ih =>
    intro accN accR
    obtain ⟨v, n⟩ := p
    simp [freqRows, ih]

theorem freqRows_map_bigR (total : ℚ) :
    ∀ (l : List (α × ℕ)) (accN : ℕ) (accR : ℚ),
      (freqRows total l accN accR).map (fun row => row.R) =
        cumsumFrom accR (l.map (fun p => (p.2 : ℚ) / total)) := by
  intro l
  induction l with
  | nil => intro accN accR; simp [freqRows, cumsumFrom]
  | cons p rest ih =>
    intro accN accR
    obtain ⟨v, n⟩ := p
    simp [freqRows, cumsumFrom, ih]

theorem cumsumFrom_getLast? {M : Type} [AddCommMonoid M] :
    ∀ (l : List M) (acc : M), l ≠ [] →
      (cumsumFrom acc l).getLast? = some (acc + l.sum) := by
  intro l
  induction l with
  | nil => intro acc h; exact absurd rfl h
  | cons x xs ih =>
    intro acc _
    cases xs with
    | nil => simp [cumsumFrom]
    | cons y ys =>
      have hih := ih (acc + x) (by simp)
      rw [cumsumFrom] at hih
      rw [cumsumFrom, cumsumFrom, List.getLast?_cons_cons, hih]
      rw [List.sum_cons, List.sum_cons, List.sum_cons]
      congr 1
      rw [add_assoc]

/-! ## Entropy

The float result of `entropy` is modelled as `Option ℝ`: `none` models the
float NaN returned for an empty collection, `some x` models an ordinary
float result computed with exact real arithmetic (`Real.logb 2` for
`np.log2`). -/

/-- The arithmetic core of `entropy`: given the list of per-value counts
(at least two of them), mirror
`np.log2(total)` if `len(counts) == total` else
`np.log2(total) - (counts * np.log2(counts)).sum() / total`,
with `total = counts.sum()`. -/
noncomputable def entropyVal (counts : List ℕ) : ℝ :=
  if counts.length = counts.sum then Real.logb 2 (counts.sum : ℝ)
  else Real.logb 2 (counts.sum : ℝ) -
    (counts.map (fun (c : ℕ) => (c : ℝ) * Real.logb 2 c)).sum / (counts.sum : ℝ)

namespace pandastools

/-- Embedding of `pandastools.entropy`: NaN (`none`) on the empty
collection, `0.0` when there is a single distinct value, otherwise the
two-branch log formula over the value counts (which are taken with
`dropna=False`, i.e. over the raw values). -/
noncomputable def entropy (values : List α) : Option ℝ :=
  if values.length = 0 then none
  else if ((valueCounts values).map Prod.snd).length = 1 then some 0
  else some (entropyVal ((valueCounts values).map Prod.snd))

end pandastools

/-- The dropna filter of the spec: drop the missing entries when `dropna`
is true, keep the collection as-is when it is false. -/
def dropnaFilter (values : List (Option α)) (dropna : Bool) : List (Option α) :=
  if dropna then values.filter (fun v => v.isSome) else values

/-- Modelled from the spec: the dropna-aware `entropy(values, dropna=True)`
exercised by the test suite is not among the source files (only its tests
are).  Following the spec's words: missing entries (`Option.none` models
the missing marker) are excluded before computing the distribution when
`dropna` is true, and the marker is one more distinct value when it is
false; NaN (`none`) is returned if the collection after the dropna filter
is empty; `0.0` if exactly one distinct value remains; otherwise the
Shannon formula over the empirical counts. -/
noncomputable def entropyDropna (values : List (Option α)) (dropna : Bool) :
    Option ℝ :=
  if (dropnaFilter values dropna).length = 0 then none
  else if ((valueCounts (dropnaFilter values dropna)).map Prod.snd).length = 1 then
    some 0
  else some (entropyVal ((valueCounts (dropnaFilter values dropna)).map Prod.snd))

/-! ## Labeled tables and combination functions

A labeled table (`DataFrame`) is a list of column names together with
rows, each row being its label plus one optional value per column
(`Option.none` models a missing value / NaN cell).  A labeled column
(`Series`) is a name plus labelled optional values; `pd.DataFrame(series)`
turns it into a one-column table.  The variadic inputs of the combination
functions (tables, series, and arbitrarily nested sequences of them) are
modelled by the inductive `PdArg`, and `bumbag.core.flatten` by
`flattenArgs`. -/

/-- A labeled column: its name and the labelled optional values. -/
structure Series (L N V : Type) where
  name : N
  rows : List (L × Option V)

/-- A labeled table: named columns and labelled rows of optional cells. -/
structure DataFrame (L N V : Type) where
  colNames : List N
  rows : List (L × List (Option V))

/-- An individual object acceptable by the combination functions. -/
inductive PdObj (L N V : Type) where
  | df (d : DataFrame L N V)
  | series (s : Series L N V)

/-- A variadic argument: an individual object or a (nested) sequence. -/
inductive PdArg (L N V : Type) where
  | obj (o : PdObj L N V)
  | seq (l : List (PdArg L N V))

variable {L N V : Type}

/-- Model of `bumbag.core.flatten`: expand nested sequences into the flat
ordered sequence of individual objects, preserving relative order. -/
def flattenArgs : List (PdArg L N V) → List (PdObj L N V)
  | [] => []
  | .obj o :: rest => o :: flattenArgs rest
  | .seq l :: rest => flattenArgs l ++ flattenArgs rest

/-- `pd.DataFrame(series)`: a single-column table. -/
def Series.toDataFrame (s : Series L N V) : DataFrame L N V :=
  ⟨[s.name], s.rows.map (fun r => (r.1, [r.2]))⟩

/-- `pd.DataFrame(obj)` applied to each flattened object. -/
def PdObj.toDataFrame : PdObj L N V → DataFrame L N V
  | .df d => d
  | .series s => s.toDataFrame

/-- The row labels of a table, in row order. -/
def DataFrame.labels (d : DataFrame L N V) : List L :=
  d.rows.map Prod.fst

/-- Reindexing a table to a row label: the cell list of the first row
carrying that label, or a full row of missing values when the label is
absent from the table. -/
def rowValsFor [DecidableEq L] (d : DataFrame L N V) (l : L) : List (Option V) :=
  match d.rows.find? (fun r => decide (r.1 = l)) with
  | some r => r.2
  | none => List.replicate d.colNames.length none

/-- `pd.concat(dfs, axis=1)`: outer join on row labels.  The result's rows
are indexed by the union of the input label sets (first-appearance order);
each row is the concatenation of every input's cells at that label, with
missing-value padding where the label is absent.  An empty input sequence
raises `ValueError("No objects to concatenate")`. -/
def concatAxis1 [DecidableEq L] (dfs : List (DataFrame L N V)) :
    Except String (DataFrame L N V) :=
  if dfs.isEmpty then .error "No objects to concatenate"
  else .ok
    ⟨(dfs.map DataFrame.colNames).flatten,
     (firstUniques ((dfs.map DataFrame.labels).flatten)).map
       (fun l => (l, (dfs.map (fun d => rowValsFor d l)).flatten))⟩

/-- Cell of a row at a named column: the value stored at the first position
of `names` holding `target`, or missing when the row's table lacks that
column. -/
def lookupCol [DecidableEq N] :
    List N → List (Option V) → N → Option V
  | [], _, _ => none
  | _ :: _, [], _ => none
  | c :: cs, v :: vs, target => if c = target then v else lookupCol cs vs target

/-- `pd.concat(dfs, axis=0)`: vertical concatenation aligned by column
name.  The result's columns are the union of the input column names
(first-appearance order); the rows are every input's rows in input order,
labels kept as-is, each reindexed to the union columns with missing-value
padding.  An empty input sequence raises
`ValueError("No objects to concatenate")`. -/
def concatAxis0 [DecidableEq N] (dfs : List (DataFrame L N V)) :
    Except String (DataFrame L N V) :=
  if dfs.isEmpty then .error "No objects to concatenate"
  else .ok
    ⟨firstUniques ((dfs.map DataFrame.colNames).flatten),
     dfs.flatMap (fun d => d.rows.map
       (fun r => (r.1, (firstUniques ((dfs.map DataFrame.colNames).flatten)).map
         (lookupCol d.colNames r.2))))⟩

namespace pandastools

/-- Embedding of `pandastools.join_dataframes_by_index`:
`pd.concat(map(pd.DataFrame, flatten(dataframes)), axis=1)`. -/
def join_dataframes_by_index [DecidableEq L] (args : List (PdArg L N V)) :
    Except String (DataFrame L N V) :=
  concatAxis1 ((flattenArgs args).map PdObj.toDataFrame)

/-- Embedding of `pandastools.union_dataframes_by_name`:
`pd.concat(map(pd.DataFrame, flatten(dataframes)), axis=0)`. -/
def union_dataframes_by_name [DecidableEq N] (args : List (PdArg L N V)) :
    Except String (DataFrame L N V) :=
  concatAxis0 ((flattenArgs args).map PdObj.toDataFrame)

end pandastools

/-! ## Supporting lemmas about `freq` -/

theorem freqRows_r_mem (total : ℚ) :
    ∀ (l : List (α × ℕ)) (accN : ℕ) (accR : ℚ) (row : FreqRow α),
      row ∈ freqRows total l accN accR → row.r = (row.n : ℚ) / total := by
  intro l
  induction l with
  | nil => intro accN accR row hrow; simp [freqRows] at hrow
  | cons p rest ih =>
    intro accN accR row hrow
    obtain ⟨v, n⟩ := p
    rw [freqRows] at hrow
    rcases List.mem_cons.mp hrow with rfl | hrow'
    · rfl
    · exact ih _ _ row hrow'

theorem freq_map_n (values : List α) :
    (pandastools.freq values).map (fun row => row.n) =
      (sortCountDesc (valueCounts values)).map Prod.snd := by
  unfold pandastools.freq
  exact freqRows_map_n _ _ _ _

theorem freq_sum_n (values : List α) :
    ((pandastools.freq values).map (fun row => row.n)).sum = values.length := by
  rw [freq_map_n]
  rw [((sortCountDesc_perm (valueCounts values)).map Prod.snd).sum_eq]
  exact sum_valueCounts values

theorem freq_map_value_n (values : List α) :
    (pandastools.freq values).map (fun row => (row.value, row.n)) =
      sortCountDesc (valueCounts values) := by
  unfold pandastools.freq
  exact freqRows_map_value_n _ _ _ _

/-! ## Supporting lemmas about entropy -/

theorem entropyVal_perm {c c' : List ℕ} (hp : c.Perm c') :
    entropyVal c = entropyVal c' := by
  unfold entropyVal
  rw [hp.sum_eq, hp.length_eq, (hp.map (fun (c : ℕ) => (c : ℝ) * Real.logb 2 c)).sum_eq]

theorem list_sum_map_sub (f g : ℕ → ℝ) (l : List ℕ) :
    (l.map (fun c => f c - g c)).sum = (l.map f).sum - (l.map g).sum := by
  induction l with
  | nil => simp
  | cons x xs ih =>
    simp only [List.map_cons, List.sum_cons, ih]
    ring

theorem all_one_of_sum_eq_length {l : List ℕ} (hpos : ∀ c ∈ l, 1 ≤ c)
    (hsum : l.sum = l.length) : ∀ c ∈ l, c = 1 := by
  induction l with
  | nil => intro c hc; simp at hc
  | cons x xs ih =>
    rw [List.sum_cons, List.length_cons] at hsum
    have hx : 1 ≤ x := hpos x (List.mem_cons_self x xs)
    have hxs : ∀ c ∈ xs, 1 ≤ c := fun c hc => hpos c (List.mem_cons_of_mem x hc)
    have hle : xs.length ≤ xs.sum := by
      calc xs.length = (xs.map (fun _ => 1)).sum := by simp
        _ ≤ xs.sum := by
            rw [show xs.sum = (xs.map id).sum by simp]
            exact List.sum_le_sum (fun c hc => hxs c hc)
    have hx1 : x = 1 := by omega
    have hsum' : xs.sum = xs.length := by omega
    intro c hc
    rcases List.mem_cons.mp hc with rfl | hc'
    · exact hx1
    · exact ih hxs hsum' c hc'

/-- The general Shannon sum `-Σ (c/T)·log2(c/T)` over positive counts with
total `T ≠ 0` rearranges to the source's `log2 T - (Σ c·log2 c)/T`. -/
theorem shannon_rearrange (counts : List ℕ) (hpos : ∀ c ∈ counts, 1 ≤ c)
    (hT : counts.sum ≠ 0) :
    -((counts.map (fun (c : ℕ) => ((c : ℝ) / (counts.sum : ℝ)) *
        Real.logb 2 ((c : ℝ) / (counts.sum : ℝ)))).sum) =
      Real.logb 2 (counts.sum : ℝ) -
        (counts.map (fun (c : ℕ) => (c : ℝ) * Real.logb 2 c)).sum / (counts.sum : ℝ) := by
  have hTR : ((counts.sum : ℕ) : ℝ) ≠ 0 := Nat.cast_ne_zero.mpr hT
  have hstep : (counts.map (fun (c : ℕ) => ((c : ℝ) / (counts.sum : ℝ)) *
      Real.logb 2 ((c : ℝ) / (counts.sum : ℝ)))).sum =
      (counts.map (fun (c : ℕ) => ((c : ℝ) * Real.logb 2 c) / (counts.sum : ℝ) -
        ((c : ℝ) * Real.logb 2 (counts.sum : ℝ)) / (counts.sum : ℝ))).sum := by
    apply congrArg
    apply List.map_congr_left
    intro c hc
    have hc0 : ((c : ℕ) : ℝ) ≠ 0 :=
      Nat.cast_ne_zero.mpr (Nat.one_le_iff_ne_zero.mp (hpos c hc))
    rw [Real.logb_div hc0 hTR]
    field_simp
    ring
  rw [hstep, list_sum_map_sub]
  have h1 : (counts.map (fun (c : ℕ) => ((c : ℝ) * Real.logb 2 c) / (counts.sum : ℝ))).sum =
      (counts.map (fun (c : ℕ) => (c : ℝ) * Real.logb 2 c)).sum / (counts.sum : ℝ) := by
    simp only [div_eq_mul_inv]
    rw [List.sum_map_mul_right]
  have hcast : (counts.map (fun (c : ℕ) => ((c : ℕ) : ℝ))).sum = ((counts.sum : ℕ) : ℝ) := by
    rw [Nat.cast_list_sum]
  have h2 : (counts.map (fun (c : ℕ) => ((c : ℝ) * Real.logb 2 (counts.sum : ℝ)) /
      (counts.sum : ℝ))).sum = Real.logb 2 (counts.sum : ℝ) := by
    have : (counts.map (fun (c : ℕ) => ((c : ℝ) * Real.logb 2 (counts.sum : ℝ)) /
        (counts.sum : ℝ))).sum =
        (counts.map (fun (c : ℕ) => ((c : ℕ) : ℝ))).sum *
          (Real.logb 2 (counts.sum : ℝ) / (counts.sum : ℝ)) := by
      rw [← List.sum_map_mul_right]
      apply congrArg
      apply List.map_congr_left
      intro c _
      ring
    rw [this, hcast, ← mul_div_assoc, mul_comm, mul_div_assoc, div_self hTR, mul_one]
  rw [h1, h2]
  ring

theorem sum_c_logc_all_one {counts : List ℕ} (hall : ∀ c ∈ counts, c = 1) :
    (counts.map (fun (c : ℕ) => (c : ℝ) * Real.logb 2 c)).sum = 0 := by
  have : counts.map (fun (c : ℕ) => (c : ℝ) * Real.logb 2 c) =
      counts.map (fun _ => (0 : ℝ)) := by
    apply List.map_congr_left
    intro c hc
    rw [hall c hc]
    simp
  rw [this]
  simp

/-! ## Claim theorems -/

/-- C3: the rows of `freq(values)` are ordered by descending count `n`;
rows with equal counts appear in the order in which their distinct values
first appear in the input (`valueCounts` keys them in first-encountered
order), not in any ordering of the values themselves; and on
`["a","c","b","g","h","a","g","a"]` the row order is `a, g, c, b, h` with
the stated `n`, `N`, `r`, `R` values. -/
theorem freq_descending_stable_ties :
    (∀ (β : Type) [DecidableEq β] (values : List β),
      (pandastools.freq values).Pairwise (fun a b => b.n ≤ a.n) ∧
      (∀ c : ℕ,
        ((pandastools.freq values).filter (fun row => row.n = c)).map
            (fun row => row.value) =
          ((valueCounts values).filter (fun p => p.2 = c)).map Prod.fst)) ∧
    pandastools.freq ["a", "c", "b", "g", "h", "a", "g", "a"] =
      [⟨"a", 3, 3, 3/8, 3/8⟩, ⟨"g", 2, 5, 1/4, 5/8⟩, ⟨"c", 1, 6, 1/8, 3/4⟩,
       ⟨"b", 1, 7, 1/8, 7/8⟩, ⟨"h", 1, 8, 1/8, 1⟩] := by
  constructor
  · intro β instβ values
    constructor
    · have h := pairwise_sortCountDesc (valueCounts values)
      rw [← freq_map_value_n values] at h
      exact List.pairwise_map.mp h
    · intro c
      have h1 := List.filter_map (p := fun p => decide (p.2 = c))
        (fun (row : FreqRow β) => (row.value, row.n)) (pandastools.freq values)
      rw [freq_map_value_n values, filter_sortCountDesc] at h1
      have h2 := congrArg (List.map Prod.fst) h1
      rw [List.map_map] at h2
      exact h2.symm
  · simp +decide only [pandastools.freq, valueCounts, firstUniques, sortCountDesc,
      insertDesc, freqRows, List.dedup_cons_of_mem, List.dedup_cons_of_not_mem,
      List.count_cons, List.reverse_cons, List.reverse_nil, List.nil_append,
      List.cons_append, List.count_nil, List.map_cons, List.map_nil, List.sum_cons,
      List.sum_nil, List.mem_cons, List.not_mem_nil, List.dedup_nil]
    norm_num

/-- C4: for a non-empty collection, the sum of the `n` column is the input
length; each `r` is `n` divided by the sum of the `n` column; `N` is the
running cumulative sum of `n` in row order; `R` is the running cumulative
sum of `r`; and the final entry of `R` is exactly `1` (float arithmetic
modelled exactly by `ℚ`). -/
theorem freq_totals_and_cumulants (values : List α) (h : values ≠ []) :
    ((pandastools.freq values).map (fun row => row.n)).sum = values.length ∧
    (∀ row ∈ pandastools.freq values,
      row.r = (row.n : ℚ) /
        ((((pandastools.freq values).map (fun row => row.n)).sum : ℕ) : ℚ)) ∧
    (pandastools.freq values).map (fun row => row.N) =
      cumsum ((pandastools.freq values).map (fun row => row.n)) ∧
    (pandastools.freq values).map (fun row => row.R) =
      cumsum ((pandastools.freq values).map (fun row => row.r)) ∧
    ((pandastools.freq values).map (fun row => row.R)).getLast? = some 1 := by
  refine ⟨freq_sum_n values, ?_, ?_, ?_, ?_⟩
  · intro row hrow
    rw [freq_map_n, ((sortCountDesc_perm (valueCounts values)).map Prod.snd).sum_eq]
    have := freqRows_r_mem
      (((sortCountDesc (valueCounts values)).map Prod.snd).sum : ℚ)
      (sortCountDesc (valueCounts values)) 0 0 row hrow
    rw [this, ((sortCountDesc_perm (valueCounts values)).map Prod.snd).sum_eq]
  · unfold pandastools.freq cumsum
    rw [freqRows_map_bigN, freqRows_map_n]
  · unfold pandastools.freq cumsum
    rw [freqRows_map_bigR, freqRows_map_r]
  · have hne : sortCountDesc (valueCounts values) ≠ [] := by
      intro hnil
      apply valueCounts_ne_nil h
      have hp := sortCountDesc_perm (valueCounts values)
      rw [hnil] at hp
      exact hp.symm.eq_nil
    have hLne : (sortCountDesc (valueCounts values)).map
        (fun p => ((p.2 : ℚ) /
          (((sortCountDesc (valueCounts values)).map Prod.snd).sum : ℚ))) ≠ [] := by
      simpa using hne
    unfold pandastools.freq
    rw [freqRows_map_bigR]
    rw [cumsumFrom_getLast? _ _ hLne]
    have htotal : (((sortCountDesc (valueCounts values)).map Prod.snd).sum : ℚ) ≠ 0 := by
      rw [((sortCountDesc_perm (valueCounts values)).map Prod.snd).sum_eq,
        sum_valueCounts]
      exact_mod_cast (Nat.cast_ne_zero (R := ℚ)).mpr
        (fun h0 => h (List.length_eq_zero.mp h0))
    have hsum : ((sortCountDesc (valueCounts values)).map
        (fun p => ((p.2 : ℚ) /
          (((sortCountDesc (valueCounts values)).map Prod.snd).sum : ℚ)))).sum = 1 := by
      simp only [div_eq_mul_inv]
      rw [List.sum_map_mul_right]
      have : ((sortCountDesc (valueCounts values)).map (fun p => ((p.2 : ℕ) : ℚ))).sum =
          ((((sortCountDesc (valueCounts values)).map Prod.snd).sum : ℕ) : ℚ) := by
        rw [Nat.cast_list_sum, List.map_map]
        rfl
      rw [this]
      exact mul_inv_cancel₀ htotal
    rw [hsum]
    norm_num

/-- C9: `pandastools.freq` and `pdtools.freq` are extensionally equal: on
every value collection they return the same frequency table (same rows, in
the same order, with the same `n`, `N`, `r`, `R` values). -/
theorem freq_pandastools_eq_pdtools :
    ∀ (β : Type) [DecidableEq β] (values : List β),
      pandastools.freq values = pdtools.freq values := by
  intro β instβ values
  rfl

/-- C10: `entropy` is invariant under permutation of the input collection:
it depends only on the multiset of per-value counts, not on the order in
which the values appear. -/
theorem entropy_perm_invariant (l l' : List α) (hp : l.Perm l') :
    pandastools.entropy l = pandastools.entropy l' := by
  unfold pandastools.entropy
  have hvc := valueCounts_perm hp
  rw [hp.length_eq, (hvc.map Prod.snd).length_eq,
    entropyVal_perm (hvc.map Prod.snd)]

/-- Witness for C10: a concrete permuted pair. -/
theorem entropy_perm_invariant_witness :
    (["a", "b", "a", "c"] : List String).Perm ["c", "a", "a", "b"] ∧
    pandastools.entropy (["a", "b", "a", "c"] : List String) =
      pandastools.entropy ["c", "a", "a", "b"] :=
  ⟨by decide, entropy_perm_invariant ["a", "b", "a", "c"] ["c", "a", "a", "b"] (by decide)⟩

/-- C2: whenever at least two distinct values are present, `entropy`
equals the Shannon sum `-Σ p(x)·log2 p(x)` with `p(x) = count(x)/total`
over the distinct values; and when every value is distinct (as many
distinct values as elements, i.e. all counts are 1) that sum collapses to
`log2 total`, so the source's `len(counts) == total` fast path and the
general formula agree. -/
theorem entropy_shannon_formula (values : List α)
    (h2 : 2 ≤ ((valueCounts values).map Prod.snd).length) :
    pandastools.entropy values =
      some (-((((valueCounts values).map Prod.snd).map
        (fun (c : ℕ) => ((c : ℝ) / (values.length : ℝ)) *
          Real.logb 2 ((c : ℝ) / (values.length : ℝ)))).sum)) ∧
    (((valueCounts values).map Prod.snd).length = values.length →
      -((((valueCounts values).map Prod.snd).map
        (fun (c : ℕ) => ((c : ℝ) / (values.length : ℝ)) *
          Real.logb 2 ((c : ℝ) / (values.length : ℝ)))).sum) =
        Real.logb 2 (values.length : ℝ)) := by
  have hpos : ∀ c ∈ (valueCounts values).map Prod.snd, 1 ≤ c := by
    intro c hc
    obtain ⟨p, hp, rfl⟩ := List.mem_map.mp hc
    exact count_pos_of_mem_valueCounts hp
  have hsum : ((valueCounts values).map Prod.snd).sum = values.length :=
    sum_valueCounts values
  have hlen0 : values.length ≠ 0 := by
    intro h0
    rw [List.length_eq_zero.mp h0] at h2
    simp [valueCounts_nil] at h2
  have hT : ((valueCounts values).map Prod.snd).sum ≠ 0 := by rw [hsum]; exact hlen0
  have hshannon := shannon_rearrange ((valueCounts values).map Prod.snd) hpos hT
  rw [hsum] at hshannon
  constructor
  · unfold pandastools.entropy
    rw [if_neg hlen0, if_neg (by omega)]
    apply congrArg
    unfold entropyVal
    rw [hsum, hshannon.symm]
    by_cases hfast : ((valueCounts values).map Prod.snd).length = values.length
    · rw [if_pos hfast]
      have hall : ∀ c ∈ (valueCounts values).map Prod.snd, c = 1 :=
        all_one_of_sum_eq_length hpos (by omega)
      rw [hshannon, sum_c_logc_all_one hall]
      simp
    · rw [if_neg hfast]
  · intro hfast
    rw [hshannon]
    have hall : ∀ c ∈ (valueCounts values).map Prod.snd, c = 1 :=
      all_one_of_sum_eq_length hpos (by omega)
    rw [sum_c_logc_all_one hall]
    simp

/-- Witness for C2 at `["a","b"]`, whose entropy is `1` bit. -/
theorem entropy_shannon_formula_witness :
    2 ≤ ((valueCounts (["a", "b"] : List String)).map Prod.snd).length ∧
    (pandastools.entropy (["a", "b"] : List String) =
      some (-((((valueCounts (["a", "b"] : List String)).map Prod.snd).map
        (fun (c : ℕ) => ((c : ℝ) / ((["a", "b"] : List String).length : ℝ)) *
          Real.logb 2 ((c : ℝ) / ((["a", "b"] : List String).length : ℝ)))).sum)) ∧
    (((valueCounts (["a", "b"] : List String)).map Prod.snd).length =
        (["a", "b"] : List String).length →
      -((((valueCounts (["a", "b"] : List String)).map Prod.snd).map
        (fun (c : ℕ) => ((c : ℝ) / ((["a", "b"] : List String).length : ℝ)) *
          Real.logb 2 ((c : ℝ) / ((["a", "b"] : List String).length : ℝ)))).sum) =
        Real.logb 2 ((["a", "b"] : List String).length : ℝ))) :=
  ⟨by decide, entropy_shannon_formula ["a", "b"] (by decide)⟩

/-- Witness for C4 at `["a","b","c"]` (total 3, a non-dyadic case: the
final `R` is still exactly `1` in exact arithmetic). -/
theorem freq_totals_and_cumulants_witness :
    ((["a", "b", "c"] : List String) ≠ []) ∧
    (((pandastools.freq (["a", "b", "c"] : List String)).map (fun row => row.n)).sum =
        (["a", "b", "c"] : List String).length ∧
    (∀ row ∈ pandastools.freq (["a", "b", "c"] : List String),
      row.r = (row.n : ℚ) /
        ((((pandastools.freq (["a", "b", "c"] : List String)).map
            (fun row => row.n)).sum : ℕ) : ℚ)) ∧
    (pandastools.freq (["a", "b", "c"] : List String)).map (fun row => row.N) =
      cumsum ((pandastools.freq (["a", "b", "c"] : List String)).map (fun row => row.n)) ∧
    (pandastools.freq (["a", "b", "c"] : List String)).map (fun row => row.R) =
      cumsum ((pandastools.freq (["a", "b", "c"] : List String)).map (fun row => row.r)) ∧
    ((pandastools.freq (["a", "b", "c"] : List String)).map
        (fun row => row.R)).getLast? = some 1) :=
  ⟨by decide, freq_totals_and_cumulants ["a", "b", "c"] (by decide)⟩

/-! ## Supporting lemmas for the dropna-aware entropy -/

theorem valueCounts_map_snd_of_injective {β : Type} [DecidableEq β] (f : α → β)
    (hf : Function.Injective f) (l : List α) :
    (valueCounts (l.map f)).map Prod.snd = (valueCounts l).map Prod.snd := by
  have h1 : firstUniques (l.map f) = (firstUniques l).map f := by
    unfold firstUniques
    rw [← List.map_reverse, List.dedup_map_of_injective hf, List.map_reverse]
  unfold valueCounts
  rw [h1]
  simp only [List.map_map]
  apply List.map_congr_left
  intro u _
  exact List.count_map_of_injective l f hf u

theorem entropy_map_injective {β : Type} [DecidableEq β] (f : α → β)
    (hf : Function.Injective f) (l : List α) :
    pandastools.entropy (l.map f) = pandastools.entropy l := by
  unfold pandastools.entropy
  rw [List.length_map, valueCounts_map_snd_of_injective f hf l,
    entropyVal_perm (List.Perm.refl _)]

theorem filter_isSome_eq (values : List (Option α)) :
    values.filter (fun v => v.isSome) = (values.filterMap id).map some := by
  induction values with
  | nil => simp
  | cons v vs ih => cases v <;> simp [ih]

theorem entropyDropna_eq_none_of_filter_nil (values : List (Option α))
    (dropna : Bool) (h : dropnaFilter values dropna = []) :
    entropyDropna values dropna = none := by
  unfold entropyDropna
  rw [if_pos (by rw [h]; rfl)]

theorem entropyDropna_eq_zero_of_single (values : List (Option α))
    (dropna : Bool) (h : (valueCounts (dropnaFilter values dropna)).length = 1) :
    entropyDropna values dropna = some 0 := by
  have hne : dropnaFilter values dropna ≠ [] := by
    intro h0
    rw [h0, valueCounts_nil] at h
    simp at h
  unfold entropyDropna
  rw [if_neg (fun h0 => hne (List.length_eq_zero.mp h0)),
    if_pos (by rw [List.length_map]; exact h)]

theorem dedup_all_eq {a : α} :
    ∀ (l : List α), l ≠ [] → (∀ x ∈ l, x = a) → l.dedup = [a] := by
  intro l
  induction l with
  | nil => intro h; exact absurd rfl h
  | cons x xs ih =>
    intro _ hall
    have hx : x = a := hall x (List.mem_cons_self x xs)
    cases xs with
    | nil => simp [hx]
    | cons y ys =>
      have hmem : x ∈ y :: ys := by
        have hy : y = a := hall y (by simp)
        rw [hx, ← hy]
        exact List.mem_cons_self y ys
      rw [List.dedup_cons_of_mem hmem]
      exact ih (by simp) (fun z hz => hall z (List.mem_cons_of_mem x hz))

theorem firstUniques_all_eq {a : α} {l : List α} (h : l ≠ [])
    (hall : ∀ x ∈ l, x = a) : firstUniques l = [a] := by
  unfold firstUniques
  rw [dedup_all_eq l.reverse (by simpa using h)
    (fun x hx => hall x (List.mem_reverse.mp hx))]
  rfl

/-- C1: `entropy(values, dropna)` with `dropna` true equals the entropy of
the collection with the missing entries removed; with `dropna` false it
equals the generic entropy in which the missing marker is just one more
distinct value; and on a non-empty all-missing collection `dropna=True`
yields NaN (`none`) while `dropna=False` yields `0.0`. -/
theorem entropy_dropna_policy (values : List (Option α)) :
    entropyDropna values true = pandastools.entropy (values.filterMap id) ∧
    entropyDropna values false = pandastools.entropy values ∧
    (values ≠ [] → (∀ v ∈ values, v = none) →
      entropyDropna values true = none ∧ entropyDropna values false = some 0) := by
  refine ⟨?_, ?_, ?_⟩
  · have h1 : entropyDropna values true =
        pandastools.entropy (values.filter (fun v => v.isSome)) := rfl
    rw [h1, filter_isSome_eq, entropy_map_injective some (Option.some_injective α) _]
  · rfl
  · intro hne hall
    constructor
    · apply entropyDropna_eq_none_of_filter_nil
      unfold dropnaFilter
      rw [if_pos rfl, List.filter_eq_nil_iff]
      intro v hv
      rw [hall v hv]
      simp
    · apply entropyDropna_eq_zero_of_single
      have hfil : dropnaFilter values false = values := rfl
      rw [hfil]
      unfold valueCounts
      rw [firstUniques_all_eq hne hall]
      rfl

/-- Witness for C1 on the all-missing collection `[None] * 4`. -/
theorem entropy_dropna_policy_witness :
    (([none, none, none, none] : List (Option String)) ≠ [] ∧
      ∀ v ∈ ([none, none, none, none] : List (Option String)), v = none) ∧
    (entropyDropna ([none, none, none, none] : List (Option String)) true = none ∧
      entropyDropna ([none, none, none, none] : List (Option String)) false = some 0) :=
  ⟨⟨by decide, by decide⟩,
    (entropy_dropna_policy [none, none, none, none]).2.2 (by decide) (by decide)⟩

/-- C7: the empty-after-filter condition is reported as the NaN value
(`none`), not a raised failure (`entropyDropna` is a total function into
`Option ℝ`), and exactly one distinct value yields exactly `0.0`. -/
theorem entropy_empty_nan_single_zero (values : List (Option α)) (dropna : Bool) :
    (dropnaFilter values dropna = [] → entropyDropna values dropna = none) ∧
    ((valueCounts (dropnaFilter values dropna)).length = 1 →
      entropyDropna values dropna = some 0) :=
  ⟨entropyDropna_eq_none_of_filter_nil values dropna,
    entropyDropna_eq_zero_of_single values dropna⟩

/-- Witness for C7: an all-missing collection under `dropna=True` (empty
after filtering) and a constant collection (one distinct value). -/
theorem entropy_empty_nan_single_zero_witness :
    entropyDropna ([none] : List (Option String)) true = none ∧
    entropyDropna ([some "a", some "a"] : List (Option String)) true = some 0 :=
  ⟨(entropy_empty_nan_single_zero [none] true).1 (by decide),
    (entropy_empty_nan_single_zero [some "a", some "a"] true).2 (by decide)⟩

/-! ## Supporting lemmas for the combination functions -/

theorem rowValsFor_of_not_mem {L N V : Type} [DecidableEq L]
    (d : DataFrame L N V) (l : L) (h : l ∉ d.labels) :
    rowValsFor d l = List.replicate d.colNames.length none := by
  unfold rowValsFor
  have hfind : d.rows.find? (fun r => decide (r.1 = l)) = none := by
    rw [List.find?_eq_none]
    intro r hr
    simp only [decide_eq_true_eq]
    intro heq
    exact h (heq ▸ List.mem_map_of_mem Prod.fst hr)
  rw [hfind]

theorem dedup_append_of_subset (a b : List α) (hsub : ∀ x ∈ a, x ∈ b) :
    (a ++ b).dedup = b.dedup := by
  induction a with
  | nil => simp
  | cons x xs ih =>
    rw [List.cons_append, List.dedup_cons_of_mem, ih]
    · intro t ht
      exact hsub t (List.mem_cons_of_mem x ht)
    · exact List.mem_append_right xs (hsub x (List.mem_cons_self x xs))

theorem firstUniques_append_of_subset (l₁ l₂ : List α)
    (hsub : ∀ x ∈ l₂, x ∈ l₁) : firstUniques (l₁ ++ l₂) = firstUniques l₁ := by
  unfold firstUniques
  rw [List.reverse_append, dedup_append_of_subset]
  intro t ht
  rw [List.mem_reverse] at ht ⊢
  exact hsub t ht

theorem firstUniques_eq_self {l : List α} (h : l.Nodup) : firstUniques l = l := by
  unfold firstUniques
  rw [(List.nodup_reverse.mpr h).dedup, List.reverse_reverse]

theorem firstUniques_flatten_const {c0 : List α} (ll : List (List α))
    (h : ll ≠ []) (hall : ∀ x ∈ ll, x = c0) :
    firstUniques ll.flatten = firstUniques c0 := by
  cases ll with
  | nil => exact absurd rfl h
  | cons x xs =>
    rw [List.flatten_cons, hall x (List.mem_cons_self x xs),
      firstUniques_append_of_subset]
    intro t ht
    obtain ⟨s, hs, hts⟩ := List.mem_flatten.mp ht
    rw [hall s (List.mem_cons_of_mem x hs)] at hts
    exact hts

theorem lookupCol_cons {N V : Type} [DecidableEq N] (c : N) (cs : List N)
    (v : Option V) (vs : List (Option V)) (t : N) :
    lookupCol (c :: cs) (v :: vs) t = if c = t then v else lookupCol cs vs t := rfl

theorem map_lookupCol_self {N V : Type} [DecidableEq N] :
    ∀ (c0 : List N) (vals : List (Option V)), c0.Nodup →
      vals.length = c0.length → c0.map (lookupCol c0 vals) = vals := by
  intro c0
  induction c0 with
  | nil =>
    intro vals _ hlen
    simp only [List.map_nil]
    exact (List.length_eq_zero.mp hlen).symm
  | cons c cs ih =>
    intro vals hnod hlen
    cases vals with
    | nil => simp at hlen
    | cons v vs =>
      simp only [List.length_cons, Nat.succ.injEq] at hlen
      rw [List.map_cons]
      have hhead : lookupCol (c :: cs) (v :: vs) c = v := by
        rw [lookupCol_cons, if_pos rfl]
      have htail : cs.map (lookupCol (c :: cs) (v :: vs)) =
          cs.map (lookupCol cs vs) := by
        apply List.map_congr_left
        intro t ht
        rw [lookupCol_cons, if_neg]
        intro heq
        exact (List.nodup_cons.mp hnod).1 (heq ▸ ht)
      rw [hhead, htail, ih vs (List.nodup_cons.mp hnod).2 hlen]

/-- C5: joining a non-empty flattened sequence of tables/columns
outer-aligns on row labels: the result's row-label set is the union of
every input's label set; the row at each label concatenates every input's
cells for that label; and an input lacking the label contributes a full
block of missing values for its columns. -/
theorem join_outer_alignment {L N V : Type} [DecidableEq L]
    (args : List (PdArg L N V)) (h : flattenArgs args ≠ []) :
    ∃ result : DataFrame L N V,
      pandastools.join_dataframes_by_index args = Except.ok result ∧
      (∀ l : L, l ∈ result.labels ↔
        ∃ d ∈ (flattenArgs args).map PdObj.toDataFrame, l ∈ d.labels) ∧
      (∀ l : L, l ∈ result.labels →
        (l, (((flattenArgs args).map PdObj.toDataFrame).map
          (fun d => rowValsFor d l)).flatten) ∈ result.rows ∧
        (∀ d ∈ (flattenArgs args).map PdObj.toDataFrame, l ∉ d.labels →
          rowValsFor d l = List.replicate d.colNames.length none)) := by
  set dfs := (flattenArgs args).map PdObj.toDataFrame with hdfs
  have hdne : dfs ≠ [] := by
    rw [hdfs]
    intro h0
    exact h (List.map_eq_nil_iff.mp h0)
  refine ⟨⟨(dfs.map DataFrame.colNames).flatten,
      (firstUniques ((dfs.map DataFrame.labels).flatten)).map
        (fun l => (l, (dfs.map (fun d => rowValsFor d l)).flatten))⟩, ?_, ?_, ?_⟩
  · unfold pandastools.join_dataframes_by_index concatAxis1
    rw [← hdfs, if_neg]
    intro hempty
    exact hdne (List.isEmpty_iff.mp hempty)
  · intro l
    have hlabels : (⟨(dfs.map DataFrame.colNames).flatten,
        (firstUniques ((dfs.map DataFrame.labels).flatten)).map
          (fun l => (l, (dfs.map (fun d => rowValsFor d l)).flatten))⟩ :
        DataFrame L N V).labels =
        firstUniques ((dfs.map DataFrame.labels).flatten) := by
      unfold DataFrame.labels
      rw [List.map_map]
      exact List.map_id' _
    rw [hlabels, mem_firstUniques, List.mem_flatten]
    constructor
    · rintro ⟨s, hs, hls⟩
      obtain ⟨d, hd, rfl⟩ := List.mem_map.mp hs
      exact ⟨d, hd, hls⟩
    · rintro ⟨d, hd, hld⟩
      exact ⟨d.labels, List.mem_map_of_mem DataFrame.labels hd, hld⟩
  · intro l hl
    have hlabels : (⟨(dfs.map DataFrame.colNames).flatten,
        (firstUniques ((dfs.map DataFrame.labels).flatten)).map
          (fun l => (l, (dfs.map (fun d => rowValsFor d l)).flatten))⟩ :
        DataFrame L N V).labels =
        firstUniques ((dfs.map DataFrame.labels).flatten) := by
      unfold DataFrame.labels
      rw [List.map_map]
      exact List.map_id' _
    rw [hlabels] at hl
    refine ⟨List.mem_map_of_mem _ hl, ?_⟩
    intro d _ hnot
    exact rowValsFor_of_not_mem d l hnot

/-- C6: unioning a non-empty flattened sequence of tables stacks every
input's rows in input order with each input's internal order preserved and
row labels kept as-is (duplicates retained, so the row count is the sum of
the input row counts); when all inputs share the same duplicate-free
column list, the rows are reproduced unchanged. -/
theorem union_vertical_rows {L N V : Type} [DecidableEq N]
    (args : List (PdArg L N V)) (h : flattenArgs args ≠ []) :
    ∃ result : DataFrame L N V,
      pandastools.union_dataframes_by_name args = Except.ok result ∧
      result.labels =
        (((flattenArgs args).map PdObj.toDataFrame).map DataFrame.labels).flatten ∧
      result.rows.length =
        (((flattenArgs args).map PdObj.toDataFrame).map
          (fun d => d.rows.length)).sum ∧
      (∀ c0 : List N, c0.Nodup →
        (∀ d ∈ (flattenArgs args).map PdObj.toDataFrame,
          d.colNames = c0 ∧ ∀ r ∈ d.rows, r.2.length = c0.length) →
        result.rows =
          (((flattenArgs args).map PdObj.toDataFrame).map DataFrame.rows).flatten) := by
  set dfs := (flattenArgs args).map PdObj.toDataFrame with hdfs
  have hdne : dfs ≠ [] := by
    rw [hdfs]
    intro h0
    exact h (List.map_eq_nil_iff.mp h0)
  refine ⟨⟨firstUniques ((dfs.map DataFrame.colNames).flatten),
      dfs.flatMap (fun d => d.rows.map
        (fun r => (r.1, (firstUniques ((dfs.map DataFrame.colNames).flatten)).map
          (lookupCol d.colNames r.2))))⟩, ?_, ?_, ?_, ?_⟩
  · unfold pandastools.union_dataframes_by_name concatAxis0
    rw [← hdfs, if_neg]
    intro hempty
    exact hdne (List.isEmpty_iff.mp hempty)
  · unfold DataFrame.labels
    rw [List.map_flatMap, List.flatMap_def]
    congr 1
    apply List.map_congr_left
    intro d _
    rw [List.map_map]
    rfl
  · rw [List.length_flatMap]
    congr 1
    apply List.map_congr_left
    intro d _
    simp [Function.comp]
  · intro c0 hnodup hcc
    have hcols : firstUniques ((dfs.map DataFrame.colNames).flatten) = c0 := by
      rw [firstUniques_flatten_const (dfs.map DataFrame.colNames)
          (fun h0 => hdne (List.map_eq_nil_iff.mp h0))
          (by
            intro x hx
            obtain ⟨d, hd, rfl⟩ := List.mem_map.mp hx
            exact (hcc d hd).1),
        firstUniques_eq_self hnodup]
    show dfs.flatMap (fun d => d.rows.map
        (fun r => (r.1, (firstUniques ((dfs.map DataFrame.colNames).flatten)).map
          (lookupCol d.colNames r.2)))) = (dfs.map DataFrame.rows).flatten
    rw [List.flatMap_def]
    congr 1
    apply List.map_congr_left
    intro d hd
    rw [hcols, (hcc d hd).1]
    calc d.rows.map (fun r => (r.1, c0.map (lookupCol c0 r.2)))
        = d.rows.map (fun r => r) := by
          apply List.map_congr_left
          intro r hr
          rw [map_lookupCol_self c0 r.2 hnodup ((hcc d hd).2 r hr)]
      _ = d.rows := List.map_id' _

/-- Example tables: single-column tables with labels `{0,1}` and `{0,2}`
(the spec's misaligned-label join scenario). -/
def exDf1 : DataFrame ℕ String ℕ := ⟨["a"], [(0, [some 1]), (1, [some 2])]⟩

def exDf2 : DataFrame ℕ String ℕ := ⟨["c"], [(0, [some 5]), (2, [some 7])]⟩

def exJoinArgs : List (PdArg ℕ String ℕ) :=
  [.obj (.df exDf1), .obj (.df exDf2)]

/-- Witness for C5 on two tables with label sets `{0,1}` and `{0,2}`. -/
theorem join_outer_alignment_witness :
    flattenArgs exJoinArgs ≠ [] ∧
    (∃ result : DataFrame ℕ String ℕ,
      pandastools.join_dataframes_by_index exJoinArgs = Except.ok result ∧
      (∀ l : ℕ, l ∈ result.labels ↔
        ∃ d ∈ (flattenArgs exJoinArgs).map PdObj.toDataFrame, l ∈ d.labels) ∧
      (∀ l : ℕ, l ∈ result.labels →
        (l, (((flattenArgs exJoinArgs).map PdObj.toDataFrame).map
          (fun d => rowValsFor d l)).flatten) ∈ result.rows ∧
        (∀ d ∈ (flattenArgs exJoinArgs).map PdObj.toDataFrame, l ∉ d.labels →
          rowValsFor d l = List.replicate d.colNames.length none))) :=
  ⟨by simp [exJoinArgs, flattenArgs],
    join_outer_alignment exJoinArgs (by simp [exJoinArgs, flattenArgs])⟩

/-- Example tables with identical columns `["a","b"]` for the union
scenario; the second is passed inside a nested sequence to exercise
flattening. -/
def exDf3 : DataFrame ℕ String ℕ :=
  ⟨["a", "b"], [(0, [some 1, some 2]), (1, [some 3, some 4])]⟩

def exDf4 : DataFrame ℕ String ℕ :=
  ⟨["a", "b"], [(2, [some 5, some 6]), (3, [some 7, some 8])]⟩

def exUnionArgs : List (PdArg ℕ String ℕ) :=
  [.obj (.df exDf3), .seq [.obj (.df exDf4)]]

/-- Witness for C6 on two identical-column tables. -/
theorem union_vertical_rows_witness :
    flattenArgs exUnionArgs ≠ [] ∧
    (∃ result : DataFrame ℕ String ℕ,
      pandastools.union_dataframes_by_name exUnionArgs = Except.ok result ∧
      result.labels =
        (((flattenArgs exUnionArgs).map PdObj.toDataFrame).map
          DataFrame.labels).flatten ∧
      result.rows.length =
        (((flattenArgs exUnionArgs).map PdObj.toDataFrame).map
          (fun d => d.rows.length)).sum ∧
      (∀ c0 : List String, c0.Nodup →
        (∀ d ∈ (flattenArgs exUnionArgs).map PdObj.toDataFrame,
          d.colNames = c0 ∧ ∀ r ∈ d.rows, r.2.length = c0.length) →
        result.rows =
          (((flattenArgs exUnionArgs).map PdObj.toDataFrame).map
            DataFrame.rows).flatten)) :=
  ⟨by simp [exUnionArgs, flattenArgs],
    union_vertical_rows exUnionArgs (by simp [exUnionArgs, flattenArgs])⟩

/-- C8: when zero tables are supplied (the flattened argument sequence is
empty — no arguments or only empty nested sequences), both combination
functions fail with the modelled `ValueError` rather than returning an
empty table. -/
theorem combine_zero_tables_error {L N V : Type} [DecidableEq L] [DecidableEq N]
    (args : List (PdArg L N V)) (h : flattenArgs args = []) :
    pandastools.join_dataframes_by_index args =
      Except.error "No objects to concatenate" ∧
    pandastools.union_dataframes_by_name args =
      Except.error "No objects to concatenate" := by
  unfold pandastools.join_dataframes_by_index pandastools.union_dataframes_by_name
    concatAxis1 concatAxis0
  rw [h]
  exact ⟨rfl, rfl⟩

/-- Witness for C8: a call whose only argument is an empty sequence. -/
theorem combine_zero_tables_error_witness :
    flattenArgs [PdArg.seq ([] : List (PdArg ℕ String ℕ))] = [] ∧
    (pandastools.join_dataframes_by_index
        [PdArg.seq ([] : List (PdArg ℕ String ℕ))] =
      Except.error "No objects to concatenate" ∧
    pandastools.union_dataframes_by_name
        [PdArg.seq ([] : List (PdArg ℕ String ℕ))] =
      Except.error "No objects to concatenate") :=
  ⟨by simp [flattenArgs],
    combine_zero_tables_error [PdArg.seq []] (by simp [flattenArgs])⟩

end Datatoolbelt
